import Mathlib

/-!
Verification of the CGPA-Predictor core (`app.py`).

Shallow embedding conventions:
* Python floats (marks, sgpa) are modelled as `ℚ`; Python ints as `ℤ`.
* The CSV file `records.csv` is modelled as a `List Row` of parsed rows
  (the header row and the textual encoding are abstracted away; a `Row`
  holds the values that `load_records` would parse back out of a line).
* A Python `dict` keyed by `(year, semester)` is modelled as an
  association list with Python dict assignment semantics
  (`dictInsert`): updating an existing key replaces its value in place,
  a new key is appended at the end.
* The 2-decimal serialization `f"{sgpa:.2f}"` followed by `float(...)`
  on load is modelled by `round2`, rounding a rational to 2 decimal
  digits.
-/

set_option linter.unusedVariables false

/-- One stored record, as parsed by `load_records` from a CSV row
(`year, semester, m1..m5, sgpa, timestamp`). -/
structure Row where
  year : ℤ
  semester : ℤ
  marks : List ℚ
  sgpa : ℚ
  timestamp : String
deriving DecidableEq, Repr

/-- The `(year, sem)` key used by `load_records` for its result dict. -/
def rowKey (r : Row) : ℤ × ℤ :=
  (r.year, r.semester)

/-- The in-memory keyed view: a Python dict keyed by `(year, semester)`. -/
abbrev Dict := List ((ℤ × ℤ) × Row)

/-- Python dict assignment `d[k] = v`: replace in place if the key is
present, otherwise append the new binding. -/
def dictInsert : Dict → ℤ × ℤ → Row → Dict
  | [], k, v => [(k, v)]
  | (k', v') :: t, k, v =>
      if k' = k then (k, v) :: t else (k', v') :: dictInsert t k v

/-- Python dict lookup `d.get(k)`. -/
def dictGet : Dict → ℤ × ℤ → Option Row
  | [], _ => none
  | (k', v) :: t, k => if k' = k then some v else dictGet t k

/-- `load_records`: read every stored row in order and build the dict
keyed by `(year, sem)`; a later row with the same key overwrites the
earlier entry (`records[(y, s)] = record`). -/
def load_records (rows : List Row) : Dict :=
  rows.foldl (fun d r => dictInsert d (rowKey r) r) []

/-- Rounding a rational to 2 decimal digits: the value parsed back by
`float(...)` from the `f"{sgpa:.2f}"` serialization in `save_record`. -/
def round2 (q : ℚ) : ℚ :=
  ((round (q * 100) : ℤ) : ℚ) / 100

/-- `save_record`: append one row at the end of the store; the sgpa field
is serialized with 2 decimal digits (hence stores as `round2 sgpa`). -/
def save_record (store : List Row) (year semester : ℤ) (marks : List ℚ)
    (sgpa : ℚ) (ts : String) : List Row :=
  store ++ [⟨year, semester, marks, round2 sgpa, ts⟩]

/-- `marks_to_grade_point`: convert marks (0-100) to grade points on a
10-point scale, inclusive lower bounds, highest threshold first. -/
def marks_to_grade_point (m : ℚ) : ℕ :=
  if m ≥ 90 then 10
  else if m ≥ 80 then 9
  else if m ≥ 70 then 8
  else if m ≥ 60 then 7
  else if m ≥ 50 then 6
  else if m ≥ 40 then 5
  else 0

/-- `compute_sgpa`: equal weight for the subjects, mean of grade points
(`sum(gps) / len(gps)`). -/
def compute_sgpa (marks : List ℚ) : ℚ :=
  let gps := marks.map marks_to_grade_point
  ((gps.sum : ℕ) : ℚ) / ((gps.length : ℕ) : ℚ)

/-- `compute_year_cgpa`: average of the sem-1 and sem-2 SGPA of a year,
if both records exist, else `None`. -/
def compute_year_cgpa (records : Dict) (year : ℤ) : Option ℚ :=
  match dictGet records (year, 1), dictGet records (year, 2) with
  | some s1, some s2 => some ((s1.sgpa + s2.sgpa) / 2)
  | _, _ => none

/-- `compute_overall_cgpa`: overall CGPA across all stored semesters
(equal credits); `None` on an empty record set. -/
def compute_overall_cgpa (records : Dict) : Option ℚ :=
  if records = [] then none
  else
    let s_list := records.map (fun p => p.2.sgpa)
    if s_list = [] then none
    else some (s_list.sum / ((s_list.length : ℕ) : ℚ))

/-- Spec-side definition (from the spec's words, for comparison with
`load_records`): the last row in append order whose key is `k`. -/
def lastRowWith : List Row → ℤ × ℤ → Option Row
  | [], _ => none
  | r :: rest, k =>
      match lastRowWith rest k with
      | some r' => some r'
      | none => if rowKey r = k then some r else none

/-- The canonical 8 chart slots in the order iterated by `graph_png`
(`for y in range(1, 5): for s in [1, 2]`). -/
def slots : List (ℤ × ℤ) :=
  [(1, 1), (1, 2), (2, 1), (2, 2), (3, 1), (3, 2), (4, 1), (4, 2)]

/-- The chart label `f"{y}-{s}"` of a slot. -/
def slotLabel (p : ℤ × ℤ) : String :=
  toString p.1 ++ "-" ++ toString p.2

/-- The labelled series `graph_png` prepares: one pair per canonical
slot, value `rec["sgpa"]` when a record exists for the slot, the gap
marker `none` otherwise. -/
def trendPoints (records : Dict) : List (String × Option ℚ) :=
  slots.map (fun p => (slotLabel p, (dictGet records p).map Row.sgpa))

/-- The two states of the chart: the placeholder "no data yet" plot, or
a plotted series of labelled points with gaps. -/
inductive ChartData where
  | empty : ChartData
  | series : List (String × Option ℚ) → ChartData
deriving DecidableEq, Repr

/-- The chart data built by `graph_png`: if no slot has a value (`ys`
is empty) the placeholder blank plot, else the labelled series. -/
def trendSeries (records : Dict) : ChartData :=
  if (trendPoints records).filterMap Prod.snd = [] then ChartData.empty
  else ChartData.series (trendPoints records)

/-- `reset_graph`: rewrite the store as header-only, i.e. no rows. -/
def reset_graph (store : List Row) : List Row :=
  []

/-- The outcome `submit` reports back via `flash`: a rejection with the
flashed error message, or a success carrying the computed sgpa. -/
inductive SubmitResult where
  | rejected : String → SubmitResult
  | saved : ℚ → SubmitResult
deriving DecidableEq, Repr

/-- The mark-validation loop of `submit`
(`for i, m in enumerate(marks, start=1): if m < 0 or m > 100: ...`):
returns the first failure message, or `none` when all marks pass. -/
def check_marks : ℕ → List ℚ → Option String
  | _, [] => none
  | i, m :: rest =>
      if m < 0 ∨ 100 < m then
        some ("Subject " ++ toString i ++ " marks must be between 0 and 100.")
      else check_marks (i + 1) rest

/-- `submit`: parse the 7 form fields (`none` models a field on which
`int(...)`/`float(...)` raised, all caught by the single `except`),
validate year/semester then the marks, and on success compute the sgpa
and append one row; on any failure flash a message and leave the store
unchanged. Returns the flashed outcome together with the store. -/
def submit (year? semester? : Option ℤ) (m1? m2? m3? m4? m5? : Option ℚ)
    (store : List Row) (ts : String) : SubmitResult × List Row :=
  match year?, semester?, m1?, m2?, m3?, m4?, m5? with
  | some year, some semester, some m1, some m2, some m3, some m4, some m5 =>
      if year ∉ ([1, 2, 3, 4] : List ℤ) ∨ semester ∉ ([1, 2] : List ℤ) then
        (SubmitResult.rejected "Year must be 1–4 and Semester must be 1 or 2.", store)
      else
        match check_marks 1 [m1, m2, m3, m4, m5] with
        | some msg => (SubmitResult.rejected msg, store)
        | none =>
            let sgpa := compute_sgpa [m1, m2, m3, m4, m5]
            (SubmitResult.saved sgpa,
              save_record store year semester [m1, m2, m3, m4, m5] sgpa ts)
  | _, _, _, _, _, _, _ =>
      (SubmitResult.rejected "Please enter valid numbers for Year, Semester, and all 5 marks.", store)

/-! ## Helper lemmas about the dict and the store -/

theorem dictGet_dictInsert (d : Dict) (k : ℤ × ℤ) (v : Row) (k' : ℤ × ℤ) :
    dictGet (dictInsert d k v) k' = if k = k' then some v else dictGet d k' := by
  induction d with
  | nil => simp [dictInsert, dictGet]
  | cons p t ih =>
      obtain ⟨k'', v''⟩ := p
      by_cases h : k'' = k
      · subst h
        by_cases h' : k'' = k' <;> simp [dictInsert, dictGet, h']
      · by_cases h' : k'' = k'
        · subst h'
          have hk : ¬k = k'' := fun he => h he.symm
          simp [dictInsert, dictGet, h, ih, hk]
        · simp [dictInsert, dictGet, h, h', ih]

theorem lastRowWith_none_frame (rows : List Row) (d : Dict) (k : ℤ × ℤ)
    (h : lastRowWith rows k = none) :
    dictGet (rows.foldl (fun d r => dictInsert d (rowKey r) r) d) k = dictGet d k := by
  induction rows generalizing d with
  | nil => rfl
  | cons r rest ih =>
      unfold lastRowWith at h
      rcases hr : lastRowWith rest k with _ | r'
      · rw [hr] at h
        simp only [List.foldl_cons]
        rw [ih _ hr, dictGet_dictInsert]
        split_ifs with hk
        · exact absurd (if_pos hk ▸ h) (by simp)
        · rfl
      · rw [hr] at h
        simp at h

theorem lastRowWith_some_foldl (rows : List Row) (d : Dict) (k : ℤ × ℤ) (r : Row)
    (h : lastRowWith rows k = some r) :
    dictGet (rows.foldl (fun d r => dictInsert d (rowKey r) r) d) k = some r := by
  induction rows generalizing d with
  | nil => simp [lastRowWith] at h
  | cons r0 rest ih =>
      unfold lastRowWith at h
      rcases hr : lastRowWith rest k with _ | r'
      · rw [hr] at h
        have hk : rowKey r0 = k ∧ r0 = r := by
          by_cases hk0 : rowKey r0 = k
          · refine ⟨hk0, ?_⟩
            rw [if_pos hk0] at h
            exact (Option.some_injective _ h)
          · rw [if_neg hk0] at h
            exact absurd h (by simp)
        simp only [List.foldl_cons]
        rw [lastRowWith_none_frame rest _ k hr, dictGet_dictInsert, hk.1, if_pos rfl, hk.2]
      · rw [hr] at h
        obtain rfl : r' = r := by simpa using h
        simp only [List.foldl_cons]
        exact ih _ hr

theorem dictGet_load_records (rows : List Row) (k : ℤ × ℤ) :
    dictGet (load_records rows) k = lastRowWith rows k := by
  rcases h : lastRowWith rows k with _ | r
  · exact lastRowWith_none_frame rows [] k h
  · exact lastRowWith_some_foldl rows [] k r h

theorem lastRowWith_append (l₁ l₂ : List Row) (k : ℤ × ℤ) :
    lastRowWith (l₁ ++ l₂) k =
      match lastRowWith l₂ k with
      | some r => some r
      | none => lastRowWith l₁ k := by
  induction l₁ with
  | nil =>
      rcases h : lastRowWith l₂ k with _ | r <;> simp [lastRowWith, h]
  | cons r0 rest ih =>
      rcases hl : lastRowWith l₂ k with _ | r
      · have ih' : lastRowWith (rest ++ l₂) k = lastRowWith rest k := by rw [ih, hl]
        simp only [hl, List.cons_append, lastRowWith, List.append_eq, ih']
      · have ih' : lastRowWith (rest ++ l₂) k = some r := by rw [ih, hl]
        simp only [hl, List.cons_append, lastRowWith, List.append_eq, ih']

theorem lastRowWith_mem (rows : List Row) (k : ℤ × ℤ) (r : Row)
    (h : lastRowWith rows k = some r) : r ∈ rows ∧ rowKey r = k := by
  induction rows with
  | nil => simp [lastRowWith] at h
  | cons r0 rest ih =>
      unfold lastRowWith at h
      rcases hr : lastRowWith rest k with _ | r'
      · rw [hr] at h
        by_cases hk0 : rowKey r0 = k
        · rw [if_pos hk0] at h
          obtain rfl : r0 = r := Option.some_injective _ h
          exact ⟨List.mem_cons_self _ _, hk0⟩
        · rw [if_neg hk0] at h
          exact absurd h (by simp)
      · rw [hr] at h
        obtain rfl : r' = r := by simpa using h
        obtain ⟨hm, hk⟩ := ih hr
        exact ⟨List.mem_cons_of_mem _ hm, hk⟩

theorem lastRowWith_eq_none_iff (rows : List Row) (k : ℤ × ℤ) :
    lastRowWith rows k = none ↔ ∀ r ∈ rows, rowKey r ≠ k := by
  induction rows with
  | nil => simp [lastRowWith]
  | cons r0 rest ih =>
      unfold lastRowWith
      rcases hr : lastRowWith rest k with _ | r'
      · rw [hr] at ih
        constructor
        · intro h
          by_cases hk0 : rowKey r0 = k
          · rw [if_pos hk0] at h; exact absurd h (by simp)
          · intro r hm
            rcases List.mem_cons.mp hm with rfl | hm
            · exact hk0
            · exact (ih.mp rfl) r hm
        · intro h
          rw [if_neg (h r0 (List.mem_cons_self _ _))]
      · constructor
        · intro h; exact absurd h (by simp)
        · intro h
          obtain ⟨hm, hk⟩ := lastRowWith_mem rest k r' hr
          exact absurd hk (h r' (List.mem_cons_of_mem _ hm))

theorem lastRowWith_of_nodup (rows : List Row) (k : ℤ × ℤ) (r : Row)
    (hnd : (rows.map rowKey).Nodup) (hm : r ∈ rows) (hk : rowKey r = k) :
    lastRowWith rows k = some r := by
  induction rows with
  | nil => simp at hm
  | cons r0 rest ih =>
      rw [List.map_cons, List.nodup_cons] at hnd
      rcases List.mem_cons.mp hm with rfl | hm
      · have hnone : lastRowWith rest k = none := by
          rcases hr : lastRowWith rest k with _ | r'
          · rfl
          · obtain ⟨hm', hk'⟩ := lastRowWith_mem rest k r' hr
            have hmem : rowKey r ∈ List.map rowKey rest := by
              rw [hk, ← hk']
              exact List.mem_map_of_mem rowKey hm'
            exact absurd hmem hnd.1
        simp only [lastRowWith, hnone]
        rw [if_pos hk]
      · simp only [lastRowWith, ih hnd.2 hm]

/-! ## Helper lemmas about grade points and the sgpa -/

theorem marks_to_grade_point_le_ten (m : ℚ) : marks_to_grade_point m ≤ 10 := by
  unfold marks_to_grade_point
  split_ifs <;> omega

theorem sum_map_grade_points_le (l : List ℚ) :
    (l.map marks_to_grade_point).sum ≤ 10 * l.length := by
  induction l with
  | nil => simp
  | cons m rest ih =>
      simp only [List.map_cons, List.sum_cons, List.length_cons]
      have := marks_to_grade_point_le_ten m
      omega

theorem compute_sgpa_eq_sum_div_five (marks : List ℚ) (h : marks.length = 5) :
    compute_sgpa marks = (((marks.map marks_to_grade_point).sum : ℕ) : ℚ) / 5 := by
  simp [compute_sgpa, List.length_map, h]

theorem round2_natCast_div_five (k : ℕ) : round2 ((k : ℚ) / 5) = (k : ℚ) / 5 := by
  have h1 : (k : ℚ) / 5 * 100 = ((20 * k : ℕ) : ℚ) := by push_cast; ring
  rw [round2, h1, round_natCast]
  push_cast
  field_simp
  ring

theorem round2_compute_sgpa (marks : List ℚ) (h : marks.length = 5) :
    round2 (compute_sgpa marks) = compute_sgpa marks := by
  rw [compute_sgpa_eq_sum_div_five marks h, round2_natCast_div_five]

theorem check_marks_eq_none_iff (i : ℕ) (l : List ℚ) :
    check_marks i l = none ↔ ∀ m ∈ l, 0 ≤ m ∧ m ≤ 100 := by
  induction l generalizing i with
  | nil => simp [check_marks]
  | cons m rest ih =>
      unfold check_marks
      by_cases hm : m < 0 ∨ 100 < m
      · rw [if_pos hm]
        constructor
        · intro h; exact absurd h (by simp)
        · intro h
          obtain ⟨h0, h100⟩ := h m (List.mem_cons_self _ _)
          rcases hm with hm | hm
          · exact absurd h0 (not_le.mpr hm)
          · exact absurd h100 (not_le.mpr hm)
      · rw [if_neg hm]
        push_neg at hm
        rw [ih (i + 1)]
        constructor
        · intro h m' hm'
          rcases List.mem_cons.mp hm' with rfl | hm'
          · exact ⟨hm.1, hm.2⟩
          · exact h m' hm'
        · intro h m' hm'
          exact h m' (List.mem_cons_of_mem _ hm')

theorem check_marks_some_of_bad (i : ℕ) (l : List ℚ)
    (h : ∃ m ∈ l, m < 0 ∨ 100 < m) : ∃ msg, check_marks i l = some msg := by
  rcases hc : check_marks i l with _ | msg
  · obtain ⟨m, hm, hbad⟩ := h
    obtain ⟨h0, h100⟩ := (check_marks_eq_none_iff i l).mp hc m hm
    rcases hbad with hbad | hbad
    · exact absurd h0 (not_le.mpr hbad)
    · exact absurd h100 (not_le.mpr hbad)
  · exact ⟨msg, rfl⟩

/-! ## Helper lemmas about the trend series -/

theorem lastRowWith_perm (rows₁ rows₂ : List Row) (hp : rows₁.Perm rows₂)
    (hnd : (rows₁.map rowKey).Nodup) (k : ℤ × ℤ) :
    lastRowWith rows₁ k = lastRowWith rows₂ k := by
  have hnd₂ : (rows₂.map rowKey).Nodup := ((hp.map rowKey).nodup_iff).mp hnd
  rcases h1 : lastRowWith rows₁ k with _ | r
  · rcases h2 : lastRowWith rows₂ k with _ | r'
    · rfl
    · obtain ⟨hm, hk⟩ := lastRowWith_mem rows₂ k r' h2
      have := (lastRowWith_eq_none_iff rows₁ k).mp h1 r' (hp.mem_iff.mpr hm)
      exact absurd hk this
  · obtain ⟨hm, hk⟩ := lastRowWith_mem rows₁ k r h1
    exact (lastRowWith_of_nodup rows₂ k r hnd₂ (hp.mem_iff.mp hm) hk).symm

theorem trendPoints_congr (d₁ d₂ : Dict)
    (h : ∀ p ∈ slots, dictGet d₁ p = dictGet d₂ p) :
    trendPoints d₁ = trendPoints d₂ := by
  unfold trendPoints
  exact List.map_congr_left (fun p hp => by rw [h p hp])

theorem trendSeries_eq_empty_iff (d : Dict) :
    trendSeries d = ChartData.empty ↔ ∀ p ∈ slots, dictGet d p = none := by
  unfold trendSeries
  constructor
  · intro h
    by_cases hc : (trendPoints d).filterMap Prod.snd = []
    · intro p hp
      rw [List.filterMap_eq_nil_iff] at hc
      have := hc ((slotLabel p, (dictGet d p).map Row.sgpa))
        (by unfold trendPoints; exact List.mem_map_of_mem _ hp)
      simpa using this
    · rw [if_neg hc] at h
      exact absurd h (by simp)
  · intro h
    have hc : (trendPoints d).filterMap Prod.snd = [] := by
      rw [List.filterMap_eq_nil_iff]
      intro a ha
      unfold trendPoints at ha
      obtain ⟨p, hp, rfl⟩ := List.mem_map.mp ha
      simp [h p hp]
    rw [if_pos hc]

/-! ## Claim theorems -/

/-- C3: `marks_to_grade_point` applies the fixed inclusive thresholds
(10 for ≥90, 9 for ≥80, 8 for ≥70, 7 for ≥60, 6 for ≥50, 5 for ≥40,
else 0) to any rational mark, total on out-of-range input; its result
is always one of {0,5,6,7,8,9,10}; it is monotonically non-decreasing;
and it takes the spec's sample values at 90, 89.9, 39.9 and 40. -/
theorem marks_to_grade_point_spec (m m' : ℚ) :
    marks_to_grade_point m =
      (if m ≥ 90 then 10 else if m ≥ 80 then 9 else if m ≥ 70 then 8
        else if m ≥ 60 then 7 else if m ≥ 50 then 6 else if m ≥ 40 then 5 else 0) ∧
    marks_to_grade_point m ∈ ([0, 5, 6, 7, 8, 9, 10] : List ℕ) ∧
    (m ≤ m' → marks_to_grade_point m ≤ marks_to_grade_point m') ∧
    marks_to_grade_point 90 = 10 ∧ marks_to_grade_point (89.9 : ℚ) = 9 ∧
    marks_to_grade_point (39.9 : ℚ) = 0 ∧ marks_to_grade_point 40 = 5 := by
  refine ⟨rfl, ?_, ?_, ?_, ?_, ?_, ?_⟩
  · unfold marks_to_grade_point
    split_ifs <;> simp
  · intro h
    unfold marks_to_grade_point
    split_ifs <;> first | omega | linarith
  · norm_num [marks_to_grade_point]
  · norm_num [marks_to_grade_point]
  · norm_num [marks_to_grade_point]
  · norm_num [marks_to_grade_point]

/-- Witness for C3: the monotonicity hypothesis discharged at the
concrete pair 40 ≤ 90. -/
theorem marks_to_grade_point_spec_witness :
    marks_to_grade_point 40 ≤ marks_to_grade_point 90 :=
  (marks_to_grade_point_spec 40 90).2.2.1 (by norm_num)

/-- C4: `compute_sgpa` on any 5 marks is the arithmetic mean (equal
weighting) of their grade points, and takes the spec's sample values
on [90×5], [30×5] and [95,85,75,65,55]. -/
theorem compute_sgpa_mean :
    (∀ a b c d e : ℚ, compute_sgpa [a, b, c, d, e] =
      ((marks_to_grade_point a + marks_to_grade_point b + marks_to_grade_point c +
        marks_to_grade_point d + marks_to_grade_point e : ℕ) : ℚ) / 5) ∧
    compute_sgpa [90, 90, 90, 90, 90] = 10 ∧
    compute_sgpa [30, 30, 30, 30, 30] = 0 ∧
    compute_sgpa [95, 85, 75, 65, 55] = 8 := by
  refine ⟨?_, ?_, ?_, ?_⟩
  · intro a b c d e
    simp [compute_sgpa]
    ring_nf
  · norm_num [compute_sgpa, marks_to_grade_point]
  · norm_num [compute_sgpa, marks_to_grade_point]
  · norm_num [compute_sgpa, marks_to_grade_point]

/-- C2: the keyed view built by `load_records` maps each key to the
last row in append order bearing that key (later rows overwrite
earlier ones); a key is absent exactly when no row bears it; in
particular after appending two rows with the same key the view holds
the later one. -/
theorem load_records_last_wins :
    (∀ (rows : List Row) (k : ℤ × ℤ),
      dictGet (load_records rows) k = lastRowWith rows k) ∧
    (∀ (rows : List Row) (k : ℤ × ℤ),
      dictGet (load_records rows) k = none ↔ ∀ r ∈ rows, rowKey r ≠ k) ∧
    (∀ (pre : List Row) (r1 r2 : Row), rowKey r1 = rowKey r2 →
      dictGet (load_records (pre ++ [r1, r2])) (rowKey r2) = some r2) := by
  refine ⟨dictGet_load_records, ?_, ?_⟩
  · intro rows k
    rw [dictGet_load_records]
    exact lastRowWith_eq_none_iff rows k
  · intro pre r1 r2 h
    rw [dictGet_load_records, lastRowWith_append]
    have h2 : lastRowWith [r1, r2] (rowKey r2) = some r2 := by
      simp [lastRowWith]
    rw [h2]

/-- Witness for C2: two rows with the key (1,1); loading yields the
later one. -/
theorem load_records_last_wins_witness :
    dictGet (load_records ([] ++ [⟨1, 1, [50, 50, 50, 50, 50], 6, "a"⟩,
      ⟨1, 1, [60, 60, 60, 60, 60], 7, "b"⟩])) (rowKey ⟨1, 1, [60, 60, 60, 60, 60], 7, "b"⟩) =
      some ⟨1, 1, [60, 60, 60, 60, 60], 7, "b"⟩ :=
  load_records_last_wins.2.2 [] ⟨1, 1, [50, 50, 50, 50, 50], 6, "a"⟩
    ⟨1, 1, [60, 60, 60, 60, 60], 7, "b"⟩ rfl

/-- C5: the year CGPA is present exactly when both the semester-1 and
semester-2 records of the year exist; its value is then the mean of
their two sgpa values; with either record missing it is `none`. -/
theorem compute_year_cgpa_spec (d : Dict) (year : ℤ) :
    ((compute_year_cgpa d year).isSome ↔
      (dictGet d (year, 1)).isSome ∧ (dictGet d (year, 2)).isSome) ∧
    (∀ r1 r2, dictGet d (year, 1) = some r1 → dictGet d (year, 2) = some r2 →
      compute_year_cgpa d year = some ((r1.sgpa + r2.sgpa) / 2)) ∧
    ((dictGet d (year, 1) = none ∨ dictGet d (year, 2) = none) →
      compute_year_cgpa d year = none) := by
  unfold compute_year_cgpa
  rcases h1 : dictGet d (year, 1) with _ | r1 <;>
    rcases h2 : dictGet d (year, 2) with _ | r2 <;> simp [h1, h2]

/-- Witness for C5: with both semesters of year 1 present the year
CGPA is the mean of their sgpas, (6 + 7) / 2. -/
theorem compute_year_cgpa_spec_witness :
    compute_year_cgpa [((1, 1), ⟨1, 1, [50, 50, 50, 50, 50], 6, "a"⟩),
      ((1, 2), ⟨1, 2, [60, 60, 60, 60, 60], 7, "b"⟩)] 1 = some ((6 + 7) / 2) :=
  (compute_year_cgpa_spec [((1, 1), ⟨1, 1, [50, 50, 50, 50, 50], 6, "a"⟩),
      ((1, 2), ⟨1, 2, [60, 60, 60, 60, 60], 7, "b"⟩)] 1).2.1
    ⟨1, 1, [50, 50, 50, 50, 50], 6, "a"⟩ ⟨1, 2, [60, 60, 60, 60, 60], 7, "b"⟩ rfl rfl

/-- C6: the overall CGPA is `none` exactly on an empty record set, and
otherwise is the arithmetic mean of the sgpa values over all stored
(year, semester) keys, however few there are. -/
theorem compute_overall_cgpa_spec (d : Dict) :
    (compute_overall_cgpa d = none ↔ d = []) ∧
    (d ≠ [] → compute_overall_cgpa d =
      some ((d.map (fun p => p.2.sgpa)).sum / (d.length : ℚ))) := by
  rcases d with _ | ⟨p, t⟩
  · simp [compute_overall_cgpa]
  · constructor
    · simp [compute_overall_cgpa]
    · intro h
      simp [compute_overall_cgpa, List.length_map]

/-- Witness for C6: over two records with sgpa 8 and 6 the overall
CGPA is 7. -/
theorem compute_overall_cgpa_spec_witness :
    compute_overall_cgpa [((1, 1), ⟨1, 1, [70, 70, 70, 70, 70], 8, "a"⟩),
      ((1, 2), ⟨1, 2, [60, 60, 60, 60, 60], 6, "b"⟩)] = some 7 := by
  have h := (compute_overall_cgpa_spec [((1, 1), ⟨1, 1, [70, 70, 70, 70, 70], 8, "a"⟩),
    ((1, 2), ⟨1, 2, [60, 60, 60, 60, 60], 6, "b"⟩)]).2 (by simp)
  rw [h]
  norm_num

/-- C10: on any 5 marks the computed sgpa is an integer sum of grade
points (at most 50) divided by 5 — hence a multiple of 1/5 lying in
[0, 10] — so the 2-decimal serialization is lossless: saving the
computed sgpa and loading it back returns exactly the computed value. -/
theorem sgpa_quantized_lossless (marks : List ℚ) (h : marks.length = 5) :
    (∃ k : ℕ, k ≤ 50 ∧ compute_sgpa marks = (k : ℚ) / 5) ∧
    round2 (compute_sgpa marks) = compute_sgpa marks ∧
    0 ≤ compute_sgpa marks ∧ compute_sgpa marks ≤ 10 ∧
    (∀ (store : List Row) (year semester : ℤ) (ts : String),
      dictGet (load_records (save_record store year semester marks (compute_sgpa marks) ts))
        (year, semester) = some ⟨year, semester, marks, compute_sgpa marks, ts⟩) := by
  have hk : compute_sgpa marks = (((marks.map marks_to_grade_point).sum : ℕ) : ℚ) / 5 :=
    compute_sgpa_eq_sum_div_five marks h
  have hb : (marks.map marks_to_grade_point).sum ≤ 50 := by
    have hle := sum_map_grade_points_le marks
    rw [h] at hle
    omega
  have hr : round2 (compute_sgpa marks) = compute_sgpa marks := round2_compute_sgpa marks h
  refine ⟨⟨(marks.map marks_to_grade_point).sum, hb, hk⟩, hr, ?_, ?_, ?_⟩
  · rw [hk]; positivity
  · rw [hk, div_le_iff₀ (by norm_num : (0 : ℚ) < 5)]
    have hc : (((marks.map marks_to_grade_point).sum : ℕ) : ℚ) ≤ 50 := by exact_mod_cast hb
    linarith
  · intro store year semester ts
    unfold save_record
    rw [dictGet_load_records, lastRowWith_append]
    have h2 : lastRowWith [⟨year, semester, marks, round2 (compute_sgpa marks), ts⟩]
        (year, semester) = some ⟨year, semester, marks, round2 (compute_sgpa marks), ts⟩ := by
      simp [lastRowWith, rowKey]
    rw [h2, hr]

/-- Witness for C10: the sgpa of [95,85,75,65,55] survives the
2-decimal round-trip and loads back unchanged. -/
theorem sgpa_quantized_lossless_witness :
    round2 (compute_sgpa [95, 85, 75, 65, 55]) = compute_sgpa [95, 85, 75, 65, 55] ∧
    dictGet (load_records (save_record [] 1 1 [95, 85, 75, 65, 55]
        (compute_sgpa [95, 85, 75, 65, 55]) "t")) (1, 1) =
      some ⟨1, 1, [95, 85, 75, 65, 55], compute_sgpa [95, 85, 75, 65, 55], "t"⟩ := by
  have h := sgpa_quantized_lossless [95, 85, 75, 65, 55] rfl
  exact ⟨h.2.1, h.2.2.2.2 [] 1 1 "t"⟩

/-- C7: `save_record` appends exactly one row at the end — existing
rows are untouched (the old store is a prefix) — with the sgpa stored
through the 2-decimal serialization; for a record whose sgpa is the
one computed from its 5 marks, loading after saving reproduces the
same year, semester, marks, sgpa and timestamp at that record's key. -/
theorem save_load_roundtrip (store : List Row) (year semester : ℤ) (marks : List ℚ)
    (sgpa : ℚ) (ts : String) (hs : sgpa = compute_sgpa marks) (hlen : marks.length = 5) :
    save_record store year semester marks sgpa ts =
      store ++ [⟨year, semester, marks, round2 sgpa, ts⟩] ∧
    store <+: save_record store year semester marks sgpa ts ∧
    dictGet (load_records (save_record store year semester marks sgpa ts)) (year, semester) =
      some ⟨year, semester, marks, sgpa, ts⟩ := by
  have hr : round2 sgpa = sgpa := by rw [hs]; exact round2_compute_sgpa marks hlen
  refine ⟨rfl, List.prefix_append _ _, ?_⟩
  unfold save_record
  rw [dictGet_load_records, lastRowWith_append]
  have h2 : lastRowWith [⟨year, semester, marks, round2 sgpa, ts⟩] (year, semester) =
      some ⟨year, semester, marks, round2 sgpa, ts⟩ := by
    simp [lastRowWith, rowKey]
  rw [h2, hr]

/-- Witness for C7: a concrete record round-trips through the store. -/
theorem save_load_roundtrip_witness :
    dictGet (load_records (save_record [] 2 1 [95, 85, 75, 65, 55]
        (compute_sgpa [95, 85, 75, 65, 55]) "2024-01-01T00:00:00")) (2, 1) =
      some ⟨2, 1, [95, 85, 75, 65, 55], compute_sgpa [95, 85, 75, 65, 55],
        "2024-01-01T00:00:00"⟩ :=
  (save_load_roundtrip [] 2 1 [95, 85, 75, 65, 55] (compute_sgpa [95, 85, 75, 65, 55])
    "2024-01-01T00:00:00" rfl rfl).2.2

/-- C8: the chart series has exactly the 8 canonical slots in the fixed
order (1,1)…(4,2), labelled "year-semester", each carrying the slot's
sgpa or the gap marker `none`; the chart is in the empty state exactly
when no slot has a record, and that state differs from a series of 8
gaps; and the series is unchanged under reordering of the stored rows
(with distinct keys). -/
theorem trendSeries_spec :
    (∀ d : Dict,
      trendPoints d = [("1-1", (dictGet d (1, 1)).map Row.sgpa),
        ("1-2", (dictGet d (1, 2)).map Row.sgpa),
        ("2-1", (dictGet d (2, 1)).map Row.sgpa),
        ("2-2", (dictGet d (2, 2)).map Row.sgpa),
        ("3-1", (dictGet d (3, 1)).map Row.sgpa),
        ("3-2", (dictGet d (3, 2)).map Row.sgpa),
        ("4-1", (dictGet d (4, 1)).map Row.sgpa),
        ("4-2", (dictGet d (4, 2)).map Row.sgpa)] ∧
      (trendSeries d = ChartData.empty ↔ ∀ p ∈ slots, dictGet d p = none) ∧
      (trendSeries d ≠ ChartData.empty →
        trendSeries d = ChartData.series (trendPoints d))) ∧
    ChartData.empty ≠
      ChartData.series (slots.map (fun p => (slotLabel p, (none : Option ℚ)))) ∧
    (∀ rows₁ rows₂ : List Row, rows₁.Perm rows₂ → (rows₁.map rowKey).Nodup →
      trendSeries (load_records rows₁) = trendSeries (load_records rows₂)) := by
  refine ⟨?_, ?_, ?_⟩
  · intro d
    refine ⟨rfl, trendSeries_eq_empty_iff d, ?_⟩
    intro hne
    by_cases hc : (trendPoints d).filterMap Prod.snd = []
    · exact absurd (by unfold trendSeries; rw [if_pos hc]) hne
    · unfold trendSeries
      rw [if_neg hc]
  · intro h
    exact ChartData.noConfusion h
  · intro rows₁ rows₂ hp hnd
    have hget : ∀ p, dictGet (load_records rows₁) p = dictGet (load_records rows₂) p := by
      intro p
      rw [dictGet_load_records, dictGet_load_records]
      exact lastRowWith_perm rows₁ rows₂ hp hnd p
    have htp : trendPoints (load_records rows₁) = trendPoints (load_records rows₂) :=
      trendPoints_congr _ _ (fun p _ => hget p)
    unfold trendSeries
    rw [htp]

/-- Witness for C8: swapping two stored rows with distinct keys leaves
the trend series unchanged. -/
theorem trendSeries_spec_witness :
    trendSeries (load_records [⟨1, 1, [50, 50, 50, 50, 50], 6, "a"⟩,
        ⟨1, 2, [60, 60, 60, 60, 60], 7, "b"⟩]) =
      trendSeries (load_records [⟨1, 2, [60, 60, 60, 60, 60], 7, "b"⟩,
        ⟨1, 1, [50, 50, 50, 50, 50], 6, "a"⟩]) :=
  trendSeries_spec.2.2 _ _
    (List.Perm.swap (⟨1, 2, [60, 60, 60, 60, 60], 7, "b"⟩ : Row)
      (⟨1, 1, [50, 50, 50, 50, 50], 6, "a"⟩ : Row) []) (by decide)

/-- C9: `reset_graph` truncates the store to the header-only (empty)
state for any prior contents; a subsequent load yields the empty
mapping (every key absent) and a subsequent trend series is the
empty-series state, which is not a series of 8 gaps. -/
theorem reset_graph_spec (store : List Row) :
    reset_graph store = [] ∧
    load_records (reset_graph store) = [] ∧
    (∀ k, dictGet (load_records (reset_graph store)) k = none) ∧
    trendSeries (load_records (reset_graph store)) = ChartData.empty ∧
    trendSeries (load_records (reset_graph store)) ≠
      ChartData.series (slots.map (fun p => (slotLabel p, (none : Option ℚ)))) := by
  refine ⟨rfl, rfl, fun k => rfl, rfl, ?_⟩
  intro h
  rw [show trendSeries (load_records (reset_graph store)) = ChartData.empty from rfl] at h
  exact ChartData.noConfusion h

/-- Witness for C9: resetting a store holding one record empties the
mapping and the trend series. -/
theorem reset_graph_spec_witness :
    load_records (reset_graph [⟨1, 1, [50, 50, 50, 50, 50], 6, "a"⟩]) = [] ∧
    trendSeries (load_records (reset_graph [⟨1, 1, [50, 50, 50, 50, 50], 6, "a"⟩])) =
      ChartData.empty :=
  ⟨(reset_graph_spec [⟨1, 1, [50, 50, 50, 50, 50], 6, "a"⟩]).2.1,
    (reset_graph_spec [⟨1, 1, [50, 50, 50, 50, 50], 6, "a"⟩]).2.2.2.1⟩

/-- Reduction of `submit` when all 7 form fields parsed. -/
theorem submit_some_eq (year semester : ℤ) (m1 m2 m3 m4 m5 : ℚ)
    (store : List Row) (ts : String) :
    submit (some year) (some semester) (some m1) (some m2) (some m3) (some m4) (some m5)
        store ts =
      if year ∉ ([1, 2, 3, 4] : List ℤ) ∨ semester ∉ ([1, 2] : List ℤ) then
        (SubmitResult.rejected "Year must be 1–4 and Semester must be 1 or 2.", store)
      else
        match check_marks 1 [m1, m2, m3, m4, m5] with
        | some msg => (SubmitResult.rejected msg, store)
        | none =>
            (SubmitResult.saved (compute_sgpa [m1, m2, m3, m4, m5]),
              save_record store year semester [m1, m2, m3, m4, m5]
                (compute_sgpa [m1, m2, m3, m4, m5]) ts) := rfl

/-- C1: `submit` rejects, leaving the store unchanged, whenever a form
field fails to parse, or year is outside {1,2,3,4}, or semester is
outside {1,2}, or any mark falls outside [0,100]; when every
constraint holds it appends exactly one row and reports the sgpa
computed by `compute_sgpa`. -/
theorem submit_spec (year? semester? : Option ℤ) (m1? m2? m3? m4? m5? : Option ℚ)
    (store : List Row) (ts : String) :
    ((year? = none ∨ semester? = none ∨ m1? = none ∨ m2? = none ∨ m3? = none ∨
        m4? = none ∨ m5? = none) →
      ∃ msg, submit year? semester? m1? m2? m3? m4? m5? store ts =
        (SubmitResult.rejected msg, store)) ∧
    (∀ (year semester : ℤ) (m1 m2 m3 m4 m5 : ℚ),
      year? = some year → semester? = some semester → m1? = some m1 → m2? = some m2 →
      m3? = some m3 → m4? = some m4 → m5? = some m5 →
      ((year ∉ ([1, 2, 3, 4] : List ℤ) ∨ semester ∉ ([1, 2] : List ℤ) ∨
          ∃ m ∈ [m1, m2, m3, m4, m5], m < 0 ∨ 100 < m) →
        ∃ msg, submit year? semester? m1? m2? m3? m4? m5? store ts =
          (SubmitResult.rejected msg, store)) ∧
      (year ∈ ([1, 2, 3, 4] : List ℤ) → semester ∈ ([1, 2] : List ℤ) →
        (∀ m ∈ [m1, m2, m3, m4, m5], 0 ≤ m ∧ m ≤ 100) →
        submit year? semester? m1? m2? m3? m4? m5? store ts =
          (SubmitResult.saved (compute_sgpa [m1, m2, m3, m4, m5]),
            store ++ [⟨year, semester, [m1, m2, m3, m4, m5],
              round2 (compute_sgpa [m1, m2, m3, m4, m5]), ts⟩]))) := by
  constructor
  · intro h
    cases year? <;> cases semester? <;> cases m1? <;> cases m2? <;> cases m3? <;>
      cases m4? <;> cases m5? <;>
      first
        | exact ⟨_, rfl⟩
        | exact absurd h (by simp)
  · intro year semester m1 m2 m3 m4 m5 hy hs h1 h2 h3 h4 h5
    subst hy; subst hs; subst h1; subst h2; subst h3; subst h4; subst h5
    constructor
    · intro hbad
      by_cases hif : year ∉ ([1, 2, 3, 4] : List ℤ) ∨ semester ∉ ([1, 2] : List ℤ)
      · refine ⟨"Year must be 1–4 and Semester must be 1 or 2.", ?_⟩
        rw [submit_some_eq, if_pos hif]
      · have hok := hif
        push_neg at hok
        have hmarks : ∃ m ∈ [m1, m2, m3, m4, m5], m < 0 ∨ 100 < m := by
          rcases hbad with hbad | hbad | hbad
          · exact absurd hok.1 hbad
          · exact absurd hok.2 hbad
          · exact hbad
        obtain ⟨msg, hmsg⟩ := check_marks_some_of_bad 1 [m1, m2, m3, m4, m5] hmarks
        refine ⟨msg, ?_⟩
        rw [submit_some_eq, if_neg hif, hmsg]
    · intro hy hs hm
      have hif : ¬(year ∉ ([1, 2, 3, 4] : List ℤ) ∨ semester ∉ ([1, 2] : List ℤ)) := by
        push_neg
        exact ⟨hy, hs⟩
      have hcm : check_marks 1 [m1, m2, m3, m4, m5] = none :=
        (check_marks_eq_none_iff 1 _).mpr hm
      rw [submit_some_eq, if_neg hif, hcm]
      rfl

/-- Witness for C1: semester 3 is rejected with the store unchanged,
and a fully valid submission appends its one row and reports the
computed sgpa. -/
theorem submit_spec_witness :
    (∃ msg, submit (some 1) (some 3) (some 50) (some 50) (some 50) (some 50) (some 50)
        [] "t" = (SubmitResult.rejected msg, [])) ∧
    submit (some 1) (some 1) (some 95) (some 85) (some 75) (some 65) (some 55) [] "t" =
      (SubmitResult.saved (compute_sgpa [95, 85, 75, 65, 55]),
        [] ++ [⟨1, 1, [95, 85, 75, 65, 55], round2 (compute_sgpa [95, 85, 75, 65, 55]), "t"⟩]) := by
  constructor
  · exact ((submit_spec (some 1) (some 3) (some 50) (some 50) (some 50) (some 50) (some 50)
      [] "t").2 1 3 50 50 50 50 50 rfl rfl rfl rfl rfl rfl rfl).1
      (Or.inr (Or.inl (by decide)))
  · exact ((submit_spec (some 1) (some 1) (some 95) (some 85) (some 75) (some 65) (some 55)
      [] "t").2 1 1 95 85 75 65 55 rfl rfl rfl rfl rfl rfl rfl).2
      (by decide) (by decide)
      (by intro m hm; simp at hm; rcases hm with rfl | rfl | rfl | rfl | rfl <;> norm_num)
